import Mathlib

/-!
Verification of the core of `migration_verifier.py`: task-list
normalization (`normalize_tasks`), dependency-graph rendering
(`create_dependency_graph`) and graph-collection diffing
(`compare_dag_graphs`), embedded shallowly.

Python strings are compared lexicographically by Unicode code point;
`sorted` is a stable ascending sort.  Python `dict` preserves the
insertion position of a key: assigning to an existing key keeps its
position and replaces its value, so the dictionary built by
`create_dependency_graph` is embedded as an association list updated by
`upsert`.
-/

namespace MigrationVerifier

/-- Lexicographic comparison of character lists by code point: the order
Python uses on strings (`as <= bs`). -/
def charListLE : List Char → List Char → Bool
  | [], _ => true
  | _ :: _, [] => false
  | a :: as, b :: bs => if a < b then true else if b < a then false else charListLE as bs

/-- Python string comparison `a <= b`. -/
def strLE (a b : String) : Bool := charListLE a.data b.data

/-- `strLE` as a decidable relation, used as the sort order. -/
def strLEP (a b : String) : Prop := strLE a b = true

instance : DecidableRel strLEP := fun _ _ => Bool.decEq _ _

/-- Python `sorted(l)` on a list of strings: stable ascending sort.
`List.insertionSort` with a non-strict total order is stable, hence
extensionally equal to Python's (stable) sort. -/
def sortStrings (l : List String) : List String := List.insertionSort strLEP l

/-- A task record as consumed by the core: a `task_id` and an optional
`downstream_task_ids` list (absent when the key is missing). -/
structure Task where
  task_id : String
  downstream_task_ids : Option (List String)
deriving DecidableEq

/-- The loop body of `normalize_tasks`:
`task['downstream_task_ids'] = sorted(task.get('downstream_task_ids', []))`. -/
def sortTask (t : Task) : Task :=
  { t with downstream_task_ids := some (sortStrings (t.downstream_task_ids.getD [])) }

/-- Sort order of `sorted(tasks, key=lambda x: x['task_id'])`. -/
def taskLE (a b : Task) : Prop := strLE a.task_id b.task_id = true

instance : DecidableRel taskLE := fun _ _ => Bool.decEq _ _

/-- `normalize_tasks` (source lines 49-52), as a function of its return
value: each task's downstream list is sorted, then the tasks are sorted
(stably) by `task_id`. -/
def normalize_tasks (tasks : List Task) : List Task :=
  List.insertionSort taskLE (tasks.map sortTask)

/-- `normalize_tasks` with its side effect made explicit: the `for` loop
mutates each task record in place (the input list keeps its order but
its records' downstream lists are replaced by their sorted versions);
the sorted list is the return value.  First component: the post-state of
the input list; second: the return value. -/
def normalize_tasks_effect (tasks : List Task) : List Task × List Task :=
  (tasks.map sortTask, List.insertionSort taskLE (tasks.map sortTask))

/-- A Python dict from task ids to downstream lists, as an association
list; `upsert` is `graph[k] = v`: an existing key keeps its position and
gets the new value, a new key is appended. -/
def upsert (g : List (String × List String)) (k : String) (v : List String) :
    List (String × List String) :=
  match g with
  | [] => [(k, v)]
  | (k', v') :: rest => if k' = k then (k', v) :: rest else (k', v') :: upsert rest k v

/-- The first loop of `create_dependency_graph` (source lines 56-58):
`graph[task['task_id']] = task.get('downstream_task_ids', [])`. -/
def buildGraph (tasks : List Task) : List (String × List String) :=
  tasks.foldl (fun g t => upsert g t.task_id (t.downstream_task_ids.getD [])) []

/-- The dict-building loop started from an arbitrary dict state, for
reasoning about `buildGraph` by induction. -/
def buildGraphFrom (g : List (String × List String)) (tasks : List Task) :
    List (String × List String) :=
  tasks.foldl (fun g t => upsert g t.task_id (t.downstream_task_ids.getD [])) g

/-- The downstream list (absent treated as empty) of the last task in
`tasks` carrying the identifier `id`, if any. -/
def lastTaskDownstream (tasks : List Task) (id : String) : Option (List String) :=
  ((tasks.filter (fun t => decide (t.task_id = id))).getLast?).map
    (fun t => t.downstream_task_ids.getD [])

/-- The second loop of `create_dependency_graph` (source lines 60-65):
one line per dict entry, either the edge line joined by `" >> "` or the
no-downstream sentinel. -/
def renderEntry : String × List String → String
  | (tid, []) => tid ++ " (no downstream tasks)"
  | (tid, ds) => tid ++ " >> " ++ String.intercalate " >> " ds

/-- `create_dependency_graph` (source lines 55-67). -/
def create_dependency_graph (tasks : List Task) : List String :=
  (buildGraph tasks).map renderEntry

/-- A graph collection: Python dict from workflow (DAG) id to rendered
graph.  Python dict keys are unique; theorems that depend on this carry
a `Nodup` hypothesis on `keysOf`. -/
abbrev Graphs := List (String × List String)

/-- `g.keys()`. -/
def keysOf (g : Graphs) : List String := g.map Prod.fst

/-- `g[k]` as an optional value (first binding of `k`). -/
def lookupG (g : Graphs) (k : String) : Option (List String) :=
  (g.find? (fun e => decide (e.1 = k))).map Prod.snd

/-- The report dict built by `compare_dag_graphs`. -/
structure Report where
  unique_to_env1 : List String
  unique_to_env2 : List String
  different_graphs : List String
deriving DecidableEq

/-- `compare_dag_graphs` (source lines 101-128).  `dags1 - dags2`,
`dags2 - dags1` and `dags1 & dags2` are set operations on dict key sets;
set iteration order is unspecified in Python, so the three lists are
produced here in key order — every claim about them is about membership,
duplicate-freedom and disjointness only. -/
def compare_dag_graphs (graphs1 graphs2 : Graphs) : Report :=
  let dags1 := keysOf graphs1
  let dags2 := keysOf graphs2
  { unique_to_env1 := dags1.filter (fun k => decide (k ∉ dags2))
    unique_to_env2 := dags2.filter (fun k => decide (k ∉ dags1))
    different_graphs :=
      (dags1.filter (fun k => decide (k ∈ dags2))).filter
        (fun k => decide (lookupG graphs1 k ≠ lookupG graphs2 k)) }

/-- The implicit "match" category of the Diff Report: present in both
collections with element-wise equal rendered graphs; such workflows are
recorded nowhere in the report. -/
def implicitMatch (graphs1 graphs2 : Graphs) (id : String) : Prop :=
  id ∈ keysOf graphs1 ∧ id ∈ keysOf graphs2 ∧ lookupG graphs1 id = lookupG graphs2 id

/-- A raw task record as it arrives from the API: the `task_id` key may
be absent.  Used to state totality (no exception) claims: `task['task_id']`
raises `KeyError` when absent, `task.get(...)` never raises. -/
structure RawTask where
  task_id : Option String
  downstream_task_ids : Option (List String)
deriving DecidableEq

/-- The loop body of `normalize_tasks` on a raw record (never raises:
it uses `task.get('downstream_task_ids', [])`). -/
def sortRawTask (t : RawTask) : RawTask :=
  { t with downstream_task_ids := some (sortStrings (t.downstream_task_ids.getD [])) }

/-- Key extraction performed by `sorted(tasks, key=lambda x: x['task_id'])`:
raises `KeyError` on a record with no `task_id`. -/
def extractKeysE : List RawTask → Except String (List (String × RawTask))
  | [] => .ok []
  | t :: rest =>
    match t.task_id with
    | some i => (extractKeysE rest).map (fun ys => (i, t) :: ys)
    | none => .error "KeyError: task_id"

/-- Sort order on keyed raw tasks. -/
def keyedLE (a b : String × RawTask) : Prop := strLE a.1 b.1 = true

instance : DecidableRel keyedLE := fun _ _ => Bool.decEq _ _

/-- `normalize_tasks` on raw records, with the possible `KeyError` made
explicit. -/
def normalize_tasksE (tasks : List RawTask) : Except String (List RawTask) :=
  (extractKeysE (tasks.map sortRawTask)).map
    (fun keyed => (List.insertionSort keyedLE keyed).map Prod.snd)

/-- The dict-building loop of `create_dependency_graph` on raw records:
`task['task_id']` raises `KeyError` on a record with no id. -/
def buildGraphE (g : Graphs) : List RawTask → Except String Graphs
  | [] => .ok g
  | t :: rest =>
    match t.task_id with
    | some i => buildGraphE (upsert g i (t.downstream_task_ids.getD [])) rest
    | none => .error "KeyError: task_id"

/-- `create_dependency_graph` on raw records, with the possible
`KeyError` made explicit. -/
def create_dependency_graphE (tasks : List RawTask) : Except String (List String) :=
  (buildGraphE [] tasks).map (fun g => g.map renderEntry)

/-- `graphs[dag]`: raises `KeyError` when the key is absent. -/
def getItem (g : Graphs) (k : String) : Except String (List String) :=
  match lookupG g k with
  | some v => .ok v
  | none => .error "KeyError"

/-- The comparison loop of `compare_dag_graphs` over the common keys,
with the dict subscripts' possible `KeyError` made explicit. -/
def differentGraphsE (graphs1 graphs2 : Graphs) : List String → Except String (List String)
  | [] => .ok []
  | k :: rest => do
    let a ← getItem graphs1 k
    let b ← getItem graphs2 k
    let tail ← differentGraphsE graphs1 graphs2 rest
    pure (if a ≠ b then k :: tail else tail)

/-- `compare_dag_graphs` with the dict subscripts' possible `KeyError`
made explicit. -/
def compare_dag_graphsE (graphs1 graphs2 : Graphs) : Except String Report := do
  let common := (keysOf graphs1).filter (fun k => decide (k ∈ keysOf graphs2))
  let d ← differentGraphsE graphs1 graphs2 common
  pure { unique_to_env1 := (keysOf graphs1).filter (fun k => decide (k ∉ keysOf graphs2))
         unique_to_env2 := (keysOf graphs2).filter (fun k => decide (k ∉ keysOf graphs1))
         different_graphs := d }

/-! ### The embedded comparison agrees with the lexicographic order on strings -/

theorem charListLE_iff : ∀ as bs : List Char,
    charListLE as bs = true ↔ ¬ List.Lex (· < ·) bs as
  | [], bs => by
    refine iff_of_true rfl ?_
    intro h
    cases h
  | a :: as, [] => by
    refine iff_of_false ?_ ?_
    · simp [charListLE]
    · exact not_not_intro List.Lex.nil
  | a :: as, b :: bs => by
    rcases lt_trichotomy a b with hab | hab | hab
    · refine iff_of_true ?_ ?_
      · simp [charListLE, hab]
      · intro h
        cases h with
        | rel h' => exact absurd h' (asymm hab)
        | cons h' => exact absurd hab (lt_irrefl a)
    · subst hab
      show (if a < a then true else if a < a then false else charListLE as bs) = true ↔ _
      rw [if_neg (lt_irrefl a), if_neg (lt_irrefl a), List.Lex.cons_iff]
      exact charListLE_iff as bs
    · refine iff_of_false ?_ (not_not_intro (List.Lex.rel hab))
      simp [charListLE, asymm hab, hab]

theorem strLE_iff (a b : String) : strLE a b = true ↔ a ≤ b := by
  rw [String.le_iff_toList_le, ← not_lt]
  exact charListLE_iff a.data b.data

theorem strLEP_iff (a b : String) : strLEP a b ↔ a ≤ b := strLE_iff a b

instance : IsTotal String strLEP :=
  ⟨fun a b => by
    rcases le_total a b with h | h
    · exact Or.inl ((strLEP_iff a b).mpr h)
    · exact Or.inr ((strLEP_iff b a).mpr h)⟩

instance : IsTrans String strLEP :=
  ⟨fun a b c hab hbc =>
    (strLEP_iff a c).mpr (le_trans ((strLEP_iff a b).mp hab) ((strLEP_iff b c).mp hbc))⟩

theorem taskLE_iff (a b : Task) : taskLE a b ↔ a.task_id ≤ b.task_id := strLE_iff _ _

instance : IsTotal Task taskLE :=
  ⟨fun a b => by
    rcases le_total a.task_id b.task_id with h | h
    · exact Or.inl ((taskLE_iff a b).mpr h)
    · exact Or.inr ((taskLE_iff b a).mpr h)⟩

instance : IsTrans Task taskLE :=
  ⟨fun a b c hab hbc =>
    (taskLE_iff a c).mpr (le_trans ((taskLE_iff a b).mp hab) ((taskLE_iff b c).mp hbc))⟩

/-! ### Basic properties of `sortStrings`, `sortTask` and `normalize_tasks` -/

theorem sortStrings_perm (l : List String) : (sortStrings l).Perm l :=
  List.perm_insertionSort strLEP l

theorem sortStrings_pairwise (l : List String) :
    List.Pairwise (fun a b : String => a ≤ b) (sortStrings l) :=
  (List.sorted_insertionSort strLEP l).imp fun h => (strLEP_iff _ _).mp h

theorem sortStrings_of_pairwise {l : List String}
    (h : List.Pairwise (fun a b : String => a ≤ b) l) : sortStrings l = l :=
  List.Sorted.insertionSort_eq (h.imp fun hx => (strLEP_iff _ _).mpr hx)

theorem sortTask_idem (t : Task) : sortTask (sortTask t) = sortTask t := by
  simp [sortTask, sortStrings_of_pairwise (sortStrings_pairwise _)]

theorem normalize_tasks_perm_map (tasks : List Task) :
    (normalize_tasks tasks).Perm (tasks.map sortTask) :=
  List.perm_insertionSort taskLE (tasks.map sortTask)

theorem normalize_tasks_pairwise (tasks : List Task) :
    List.Pairwise (fun a b : Task => a.task_id ≤ b.task_id) (normalize_tasks tasks) :=
  (List.sorted_insertionSort taskLE (tasks.map sortTask)).imp fun h => (taskLE_iff _ _).mp h

theorem pairwise_lt_of_pairwise_le_nodup {l : List Task}
    (hle : List.Pairwise (fun a b : Task => a.task_id ≤ b.task_id) l)
    (hnd : (l.map Task.task_id).Nodup) :
    List.Pairwise (fun a b : Task => a.task_id < b.task_id) l := by
  have hne : List.Pairwise (fun a b : Task => a.task_id ≠ b.task_id) l :=
    List.pairwise_map.mp hnd
  exact (hle.and hne).imp fun h => lt_of_le_of_ne h.1 h.2

/-- C2: `normalize_tasks` returns the tasks sorted by `task_id` ascending
(lexicographic), as a permutation of the input with each task's
downstream list sorted ascending; a task with an absent downstream list
is treated as having the empty one. -/
theorem normalize_tasks_spec (tasks : List Task) :
    List.Pairwise (fun a b : Task => a.task_id ≤ b.task_id) (normalize_tasks tasks)
    ∧ (normalize_tasks tasks).Perm (tasks.map sortTask)
    ∧ (∀ t : Task, (sortTask t).task_id = t.task_id
        ∧ List.Pairwise (fun a b : String => a ≤ b) ((sortTask t).downstream_task_ids.getD [])
        ∧ ((sortTask t).downstream_task_ids.getD []).Perm (t.downstream_task_ids.getD [])
        ∧ (t.downstream_task_ids = none → (sortTask t).downstream_task_ids = some [])) := by
  refine ⟨normalize_tasks_pairwise tasks, normalize_tasks_perm_map tasks, fun t => ⟨rfl, ?_, ?_, ?_⟩⟩
  · exact sortStrings_pairwise _
  · exact sortStrings_perm _
  · intro h
    simp [sortTask, h, sortStrings]

theorem normalize_tasks_spec_witness :
    ((⟨"a", none⟩ : Task).downstream_task_ids = none →
      (sortTask ⟨"a", none⟩).downstream_task_ids = some [])
    ∧ (sortTask (⟨"a", none⟩ : Task)).downstream_task_ids = some [] :=
  ⟨((normalize_tasks_spec []).2.2 ⟨"a", none⟩).2.2.2,
    ((normalize_tasks_spec []).2.2 ⟨"a", none⟩).2.2.2 rfl⟩

/-- C7: `normalize_tasks` is idempotent on its return value. -/
theorem normalize_tasks_idem (tasks : List Task) :
    normalize_tasks (normalize_tasks tasks) = normalize_tasks tasks := by
  show List.insertionSort taskLE ((normalize_tasks tasks).map sortTask) = _
  have hfix : ∀ a ∈ normalize_tasks tasks, sortTask a = id a := by
    intro a ha
    have hmem : a ∈ tasks.map sortTask := (normalize_tasks_perm_map tasks).mem_iff.mp ha
    rcases List.mem_map.mp hmem with ⟨y, _, rfl⟩
    exact sortTask_idem y
  rw [List.map_congr_left hfix, List.map_id]
  exact List.Sorted.insertionSort_eq (List.sorted_insertionSort taskLE (tasks.map sortTask))

/-- C6 counterexample: with two tasks sharing the identifier `"a"`, the
stable sort keeps their relative input order, so two permutations of the
same input normalize to different sequences. -/
theorem normalize_tasks_order_sensitive :
    ([⟨"a", some ["y"]⟩, ⟨"a", some ["x"]⟩] : List Task).Perm
      [⟨"a", some ["x"]⟩, ⟨"a", some ["y"]⟩]
    ∧ normalize_tasks [⟨"a", some ["y"]⟩, ⟨"a", some ["x"]⟩]
        ≠ normalize_tasks [⟨"a", some ["x"]⟩, ⟨"a", some ["y"]⟩] :=
  ⟨List.Perm.swap _ _ _, by decide⟩

/-- C6 amended: on task collections whose identifiers are pairwise
distinct (the data model's assumption), `normalize_tasks` is
order-insensitive in its input. -/
theorem normalize_tasks_perm_invariant (T P : List Task)
    (hids : (T.map Task.task_id).Nodup) (hperm : P.Perm T) :
    normalize_tasks P = normalize_tasks T := by
  haveI : IsAntisymm Task (fun a b : Task => a.task_id < b.task_id) :=
    ⟨fun a b h1 h2 => absurd h2 (asymm h1)⟩
  have hp : (normalize_tasks P).Perm (normalize_tasks T) :=
    ((normalize_tasks_perm_map P).trans (hperm.map sortTask)).trans
      (normalize_tasks_perm_map T).symm
  have hidP : (P.map Task.task_id).Nodup :=
    ((hperm.map Task.task_id).nodup_iff).mpr hids
  have hndP : ((normalize_tasks P).map Task.task_id).Nodup := by
    have : ((normalize_tasks P).map Task.task_id).Perm (P.map Task.task_id) := by
      have h1 := (normalize_tasks_perm_map P).map Task.task_id
      rw [List.map_map] at h1
      have h2 : P.map (Task.task_id ∘ sortTask) = P.map Task.task_id :=
        List.map_congr_left fun a _ => rfl
      rw [h2] at h1
      exact h1
    exact this.nodup_iff.mpr hidP
  have hndT : ((normalize_tasks T).map Task.task_id).Nodup := by
    have : ((normalize_tasks T).map Task.task_id).Perm (T.map Task.task_id) := by
      have h1 := (normalize_tasks_perm_map T).map Task.task_id
      rw [List.map_map] at h1
      have h2 : T.map (Task.task_id ∘ sortTask) = T.map Task.task_id :=
        List.map_congr_left fun a _ => rfl
      rw [h2] at h1
      exact h1
    exact this.nodup_iff.mpr hids
  exact List.eq_of_perm_of_sorted hp
    (pairwise_lt_of_pairwise_le_nodup (normalize_tasks_pairwise P) hndP)
    (pairwise_lt_of_pairwise_le_nodup (normalize_tasks_pairwise T) hndT)

theorem normalize_tasks_perm_invariant_witness :
    normalize_tasks [⟨"b", none⟩, ⟨"a", none⟩] = normalize_tasks [⟨"a", none⟩, ⟨"b", none⟩] :=
  normalize_tasks_perm_invariant [⟨"a", none⟩, ⟨"b", none⟩] [⟨"b", none⟩, ⟨"a", none⟩]
    (by decide) (List.Perm.swap _ _ _)

/-- C5 counterexample: the `for` loop of `normalize_tasks` reassigns each
task's `downstream_task_ids` in place, so the records of the input list
are changed after the call. -/
theorem normalize_tasks_mutates_input :
    (normalize_tasks_effect [⟨"a", some ["c", "b"]⟩]).1 ≠ [(⟨"a", some ["c", "b"]⟩ : Task)] := by
  decide

/-- C5 amended: the input list itself keeps its records in order (the
returned sequence is a fresh list), but each record is mutated in place:
its downstream list is replaced by the sorted version (an absent list is
set to the sorted empty list). -/
theorem normalize_tasks_effect_spec (tasks : List Task) :
    List.Forall₂ (fun pre post : Task => post.task_id = pre.task_id
        ∧ post.downstream_task_ids = some (sortStrings (pre.downstream_task_ids.getD [])))
      tasks (normalize_tasks_effect tasks).1
    ∧ (normalize_tasks_effect tasks).2 = normalize_tasks tasks := by
  refine ⟨?_, rfl⟩
  induction tasks with
  | nil => exact List.Forall₂.nil
  | cons t rest ih => exact List.Forall₂.cons ⟨rfl, rfl⟩ ih

/-! ### Dict (association-list) lemmas -/

theorem keysOf_cons (a : String) (b : List String) (rest : Graphs) :
    keysOf ((a, b) :: rest) = a :: keysOf rest := rfl

theorem lookupG_nil (k : String) : lookupG [] k = none := rfl

theorem lookupG_cons (a : String) (b : List String) (rest : Graphs) (k : String) :
    lookupG ((a, b) :: rest) k = if a = k then some b else lookupG rest k := by
  by_cases h : a = k <;> simp [lookupG, List.find?_cons, h]

theorem upsert_of_not_mem {g : Graphs} {k : String} (v : List String) (h : k ∉ keysOf g) :
    upsert g k v = g ++ [(k, v)] := by
  induction g with
  | nil => rfl
  | cons e rest ih =>
    obtain ⟨a, b⟩ := e
    rw [keysOf_cons, List.mem_cons] at h
    push_neg at h
    show (if a = k then (a, v) :: rest else (a, b) :: upsert rest k v) = _
    rw [if_neg (fun he => h.1 (he.symm)), ih h.2]
    rfl

theorem keysOf_upsert (g : Graphs) (k : String) (v : List String) :
    keysOf (upsert g k v) = if k ∈ keysOf g then keysOf g else keysOf g ++ [k] := by
  induction g with
  | nil => simp [upsert, keysOf]
  | cons e rest ih =>
    obtain ⟨a, b⟩ := e
    by_cases hak : a = k
    · subst hak
      simp [upsert, keysOf]
    · show keysOf (if a = k then (a, v) :: rest else (a, b) :: upsert rest k v) = _
      rw [if_neg hak, keysOf_cons, ih, keysOf_cons]
      by_cases hm : k ∈ keysOf rest
      · rw [if_pos hm, if_pos (List.mem_cons_of_mem a hm)]
      · have hka : k ∉ a :: keysOf rest := by
          rw [List.mem_cons]
          rintro (he | hm2)
          · exact hak he.symm
          · exact hm hm2
        rw [if_neg hm, if_neg hka]
        rfl

theorem mem_keysOf_upsert {g : Graphs} {k : String} {v : List String} {k' : String} :
    k' ∈ keysOf (upsert g k v) ↔ k' ∈ keysOf g ∨ k' = k := by
  rw [keysOf_upsert]
  by_cases hm : k ∈ keysOf g
  · rw [if_pos hm]
    exact ⟨Or.inl, fun h => h.elim id fun he => by rw [he]; exact hm⟩
  · rw [if_neg hm]
    simp [List.mem_append]

theorem nodup_keysOf_upsert {g : Graphs} (h : (keysOf g).Nodup) (k : String) (v : List String) :
    (keysOf (upsert g k v)).Nodup := by
  rw [keysOf_upsert]
  by_cases hm : k ∈ keysOf g
  · simpa [hm] using h
  · rw [if_neg hm, List.nodup_append]
    refine ⟨h, List.nodup_singleton k, ?_⟩
    intro a ha hb
    rw [List.mem_singleton] at hb
    exact hm (hb ▸ ha)

theorem lookupG_upsert (g : Graphs) (k : String) (v : List String) (k' : String) :
    lookupG (upsert g k v) k' = if k' = k then some v else lookupG g k' := by
  induction g with
  | nil =>
    show lookupG [(k, v)] k' = _
    rw [lookupG_cons, lookupG_nil]
    by_cases h : k = k'
    · rw [if_pos h, if_pos h.symm]
    · rw [if_neg h, if_neg (fun he => h he.symm)]
  | cons e rest ih =>
    obtain ⟨a, b⟩ := e
    show lookupG (if a = k then (a, v) :: rest else (a, b) :: upsert rest k v) k' = _
    by_cases hak : a = k
    · rw [if_pos hak]
      subst hak
      rw [lookupG_cons]
      by_cases h : a = k'
      · rw [if_pos h, if_pos h.symm]
      · rw [if_neg h, if_neg (fun he => h he.symm), lookupG_cons, if_neg h]
    · rw [if_neg hak, lookupG_cons, ih]
      by_cases h : a = k'
      · subst h
        rw [if_pos rfl, if_neg hak, lookupG_cons, if_pos rfl]
      · rw [if_neg h]
        by_cases h2 : k' = k
        · rw [if_pos h2, if_pos h2]
        · rw [if_neg h2, if_neg h2, lookupG_cons, if_neg h]

theorem buildGraphFrom_append_singleton (g : Graphs) (tasks : List Task) (t : Task) :
    buildGraphFrom g (tasks ++ [t]) =
      upsert (buildGraphFrom g tasks) t.task_id (t.downstream_task_ids.getD []) := by
  simp [buildGraphFrom, List.foldl_append]

theorem lookupG_buildGraphFrom (tasks : List Task) (g : Graphs) (id : String) :
    lookupG (buildGraphFrom g tasks) id = (lastTaskDownstream tasks id).or (lookupG g id) := by
  induction tasks using List.reverseRecOn with
  | nil => rfl
  | append_singleton l t ih =>
    rw [buildGraphFrom_append_singleton, lookupG_upsert]
    by_cases h : id = t.task_id
    · rw [if_pos h]
      have hf : (l ++ [t]).filter (fun u => decide (u.task_id = id)) =
          l.filter (fun u => decide (u.task_id = id)) ++ [t] := by
        rw [List.filter_append]
        simp [h]
      rw [lastTaskDownstream, hf, List.getLast?_concat]
      rfl
    · rw [if_neg h]
      have hne : ¬ t.task_id = id := fun he => h he.symm
      have hf : (l ++ [t]).filter (fun u => decide (u.task_id = id)) =
          l.filter (fun u => decide (u.task_id = id)) := by
        rw [List.filter_append]
        simp [hne]
      rw [lastTaskDownstream, hf, ← lastTaskDownstream, ih]

theorem nodup_keysOf_buildGraphFrom (tasks : List Task) :
    ∀ g : Graphs, (keysOf g).Nodup → (keysOf (buildGraphFrom g tasks)).Nodup := by
  induction tasks with
  | nil => exact fun g h => h
  | cons t rest ih => exact fun g h => ih _ (nodup_keysOf_upsert h _ _)

theorem mem_keysOf_buildGraphFrom (tasks : List Task) :
    ∀ (g : Graphs) (id : String),
      id ∈ keysOf (buildGraphFrom g tasks) ↔ id ∈ keysOf g ∨ id ∈ tasks.map Task.task_id := by
  induction tasks with
  | nil => simp [buildGraphFrom]
  | cons t rest ih =>
    intro g id
    show id ∈ keysOf (buildGraphFrom (upsert g t.task_id _) rest) ↔ _
    rw [ih]
    rw [mem_keysOf_upsert]
    simp [List.mem_cons]
    tauto

theorem buildGraphFrom_of_nodup (tasks : List Task) :
    ∀ g : Graphs, (tasks.map Task.task_id).Nodup → (∀ t ∈ tasks, t.task_id ∉ keysOf g) →
      buildGraphFrom g tasks =
        g ++ tasks.map (fun t => (t.task_id, t.downstream_task_ids.getD [])) := by
  induction tasks with
  | nil => intro g _ _; simp [buildGraphFrom]
  | cons t rest ih =>
    intro g hnd hdis
    have hhead : t.task_id ∉ rest.map Task.task_id := by
      rw [List.map_cons, List.nodup_cons] at hnd
      exact hnd.1
    have htail : (rest.map Task.task_id).Nodup := by
      rw [List.map_cons, List.nodup_cons] at hnd
      exact hnd.2
    show buildGraphFrom (upsert g t.task_id (t.downstream_task_ids.getD [])) rest = _
    rw [upsert_of_not_mem _ (hdis t (List.mem_cons_self t rest))]
    rw [ih _ htail ?_]
    · simp
    intro u hu hmem
    have hkeq : keysOf (g ++ [(t.task_id, t.downstream_task_ids.getD [])]) =
        keysOf g ++ [t.task_id] := by
      simp [keysOf]
    rw [hkeq] at hmem
    rcases List.mem_append.mp hmem with hm | hm
    · exact hdis u (List.mem_cons_of_mem t hu) hm
    · have he : u.task_id = t.task_id := List.mem_singleton.mp hm
      exact hhead (List.mem_map.mpr ⟨u, hu, he⟩)

/-- C3: on a task sequence with pairwise-distinct identifiers (what
`normalize_tasks` yields on a well-formed workflow), the renderer emits
one string per task, in task order, each string being the edge line
joined by `" >> "` or the no-downstream sentinel; in particular the two
concrete examples from the spec hold. -/
theorem create_dependency_graph_spec :
    (∀ tasks : List Task, (tasks.map Task.task_id).Nodup →
      create_dependency_graph tasks = tasks.map (fun t =>
        match t.downstream_task_ids.getD [] with
        | [] => t.task_id ++ " (no downstream tasks)"
        | ds => t.task_id ++ " >> " ++ String.intercalate " >> " ds))
    ∧ create_dependency_graph (normalize_tasks [⟨"a", some ["c", "b"]⟩]) = ["a >> b >> c"]
    ∧ create_dependency_graph (normalize_tasks [⟨"a", some []⟩]) = ["a (no downstream tasks)"] := by
  refine ⟨?_, by decide, by decide⟩
  intro tasks hnd
  show (buildGraph tasks).map renderEntry = _
  rw [show buildGraph tasks = buildGraphFrom [] tasks from rfl,
    buildGraphFrom_of_nodup tasks [] hnd (by intro t _ hm; cases hm),
    List.nil_append, List.map_map]
  refine List.map_congr_left fun t _ => ?_
  show renderEntry (t.task_id, t.downstream_task_ids.getD []) = _
  cases hds : t.downstream_task_ids.getD [] with
  | nil => rfl
  | cons a l => rfl

theorem create_dependency_graph_spec_witness :
    create_dependency_graph [⟨"x", none⟩] = ([⟨"x", none⟩] : List Task).map (fun t =>
      match t.downstream_task_ids.getD [] with
      | [] => t.task_id ++ " (no downstream tasks)"
      | ds => t.task_id ++ " >> " ++ String.intercalate " >> " ds) :=
  create_dependency_graph_spec.1 [⟨"x", none⟩] (by decide)

/-- C8: a workflow with zero tasks renders as the empty sequence, an
ordinary successful result (also in the exception-explicit model). -/
theorem create_dependency_graph_empty :
    create_dependency_graph [] = [] ∧ create_dependency_graphE [] = Except.ok [] :=
  ⟨rfl, rfl⟩

/-- C10: the rendered graph has exactly one dict entry (hence one line,
by the third conjunct) per identifier occurring in the task list, and
that entry's downstream list is the one of the last task carrying the
identifier. -/
theorem create_dependency_graph_duplicate_ids (tasks : List Task) (id : String)
    (h : id ∈ tasks.map Task.task_id) :
    (keysOf (buildGraph tasks)).count id = 1
    ∧ lookupG (buildGraph tasks) id = lastTaskDownstream tasks id
    ∧ create_dependency_graph tasks = (buildGraph tasks).map renderEntry := by
  refine ⟨?_, ?_, rfl⟩
  · have hnd : (keysOf (buildGraph tasks)).Nodup :=
      nodup_keysOf_buildGraphFrom tasks [] List.nodup_nil
    have hmem : id ∈ keysOf (buildGraph tasks) :=
      (mem_keysOf_buildGraphFrom tasks [] id).mpr (Or.inr h)
    exact List.count_eq_one_of_mem hnd hmem
  · rw [show buildGraph tasks = buildGraphFrom [] tasks from rfl,
      lookupG_buildGraphFrom tasks [] id, lookupG_nil]
    cases lastTaskDownstream tasks id <;> rfl

theorem create_dependency_graph_duplicate_ids_witness :
    (keysOf (buildGraph [⟨"a", some ["x"]⟩, ⟨"a", some ["y"]⟩])).count "a" = 1
    ∧ lookupG (buildGraph [⟨"a", some ["x"]⟩, ⟨"a", some ["y"]⟩]) "a"
        = lastTaskDownstream [⟨"a", some ["x"]⟩, ⟨"a", some ["y"]⟩] "a"
    ∧ create_dependency_graph [⟨"a", some ["x"]⟩, ⟨"a", some ["y"]⟩]
        = (buildGraph [⟨"a", some ["x"]⟩, ⟨"a", some ["y"]⟩]).map renderEntry :=
  create_dependency_graph_duplicate_ids [⟨"a", some ["x"]⟩, ⟨"a", some ["y"]⟩] "a" (by decide)

/-! ### The differ -/

theorem mem_unique_to_env1 (graphs1 graphs2 : Graphs) (k : String) :
    k ∈ (compare_dag_graphs graphs1 graphs2).unique_to_env1 ↔
      k ∈ keysOf graphs1 ∧ k ∉ keysOf graphs2 := by
  simp [compare_dag_graphs, List.mem_filter]

theorem mem_unique_to_env2 (graphs1 graphs2 : Graphs) (k : String) :
    k ∈ (compare_dag_graphs graphs1 graphs2).unique_to_env2 ↔
      k ∈ keysOf graphs2 ∧ k ∉ keysOf graphs1 := by
  simp [compare_dag_graphs, List.mem_filter]

theorem mem_different_graphs (graphs1 graphs2 : Graphs) (k : String) :
    k ∈ (compare_dag_graphs graphs1 graphs2).different_graphs ↔
      k ∈ keysOf graphs1 ∧ k ∈ keysOf graphs2 ∧ lookupG graphs1 k ≠ lookupG graphs2 k := by
  simp [compare_dag_graphs, List.mem_filter]
  tauto

/-- C1: the differ classifies a workflow id as unique-to-left iff it is
a key of the left collection only, unique-to-right symmetrically, and as
differing iff it is a key of both with rendered graphs that are not
element-wise equal; an id present in both with equal graphs appears in
none of the three lists. -/
theorem compare_dag_graphs_classification (graphs1 graphs2 : Graphs) (id : String) :
    (id ∈ (compare_dag_graphs graphs1 graphs2).unique_to_env1 ↔
      id ∈ keysOf graphs1 ∧ id ∉ keysOf graphs2)
    ∧ (id ∈ (compare_dag_graphs graphs1 graphs2).unique_to_env2 ↔
      id ∈ keysOf graphs2 ∧ id ∉ keysOf graphs1)
    ∧ (id ∈ (compare_dag_graphs graphs1 graphs2).different_graphs ↔
      id ∈ keysOf graphs1 ∧ id ∈ keysOf graphs2 ∧ lookupG graphs1 id ≠ lookupG graphs2 id)
    ∧ (id ∈ keysOf graphs1 → id ∈ keysOf graphs2 →
        lookupG graphs1 id = lookupG graphs2 id →
      id ∉ (compare_dag_graphs graphs1 graphs2).unique_to_env1
      ∧ id ∉ (compare_dag_graphs graphs1 graphs2).unique_to_env2
      ∧ id ∉ (compare_dag_graphs graphs1 graphs2).different_graphs) := by
  refine ⟨mem_unique_to_env1 _ _ _, mem_unique_to_env2 _ _ _, mem_different_graphs _ _ _, ?_⟩
  intro h1 h2 he
  refine ⟨?_, ?_, ?_⟩
  · rw [mem_unique_to_env1]
    rintro ⟨_, hn⟩
    exact hn h2
  · rw [mem_unique_to_env2]
    rintro ⟨_, hn⟩
    exact hn h1
  · rw [mem_different_graphs]
    rintro ⟨_, _, hn⟩
    exact hn he

theorem compare_dag_graphs_classification_witness :
    "w1" ∉ (compare_dag_graphs [("w1", ["a (no downstream tasks)"])]
        [("w1", ["a (no downstream tasks)"])]).unique_to_env1
    ∧ "w1" ∉ (compare_dag_graphs [("w1", ["a (no downstream tasks)"])]
        [("w1", ["a (no downstream tasks)"])]).unique_to_env2
    ∧ "w1" ∉ (compare_dag_graphs [("w1", ["a (no downstream tasks)"])]
        [("w1", ["a (no downstream tasks)"])]).different_graphs :=
  (compare_dag_graphs_classification [("w1", ["a (no downstream tasks)"])]
    [("w1", ["a (no downstream tasks)"])] "w1").2.2.2 (by decide) (by decide) rfl

/-- C4: for collections with duplicate-free key lists (all Python
dicts), every id in the union of the key sets falls in exactly one of
the four categories unique-to-left, unique-to-right, differing, implicit
match, and the three report lists are duplicate-free and pairwise
disjoint. -/
theorem compare_dag_graphs_partition (graphs1 graphs2 : Graphs)
    (h1 : (keysOf graphs1).Nodup) (h2 : (keysOf graphs2).Nodup) :
    (compare_dag_graphs graphs1 graphs2).unique_to_env1.Nodup
    ∧ (compare_dag_graphs graphs1 graphs2).unique_to_env2.Nodup
    ∧ (compare_dag_graphs graphs1 graphs2).different_graphs.Nodup
    ∧ (∀ id : String, ¬ (id ∈ (compare_dag_graphs graphs1 graphs2).unique_to_env1
        ∧ id ∈ (compare_dag_graphs graphs1 graphs2).unique_to_env2))
    ∧ (∀ id : String, ¬ (id ∈ (compare_dag_graphs graphs1 graphs2).unique_to_env1
        ∧ id ∈ (compare_dag_graphs graphs1 graphs2).different_graphs))
    ∧ (∀ id : String, ¬ (id ∈ (compare_dag_graphs graphs1 graphs2).unique_to_env2
        ∧ id ∈ (compare_dag_graphs graphs1 graphs2).different_graphs))
    ∧ (∀ id : String, id ∈ keysOf graphs1 ∨ id ∈ keysOf graphs2 →
        (id ∈ (compare_dag_graphs graphs1 graphs2).unique_to_env1
          ∧ id ∉ (compare_dag_graphs graphs1 graphs2).unique_to_env2
          ∧ id ∉ (compare_dag_graphs graphs1 graphs2).different_graphs
          ∧ ¬ implicitMatch graphs1 graphs2 id)
        ∨ (id ∉ (compare_dag_graphs graphs1 graphs2).unique_to_env1
          ∧ id ∈ (compare_dag_graphs graphs1 graphs2).unique_to_env2
          ∧ id ∉ (compare_dag_graphs graphs1 graphs2).different_graphs
          ∧ ¬ implicitMatch graphs1 graphs2 id)
        ∨ (id ∉ (compare_dag_graphs graphs1 graphs2).unique_to_env1
          ∧ id ∉ (compare_dag_graphs graphs1 graphs2).unique_to_env2
          ∧ id ∈ (compare_dag_graphs graphs1 graphs2).different_graphs
          ∧ ¬ implicitMatch graphs1 graphs2 id)
        ∨ (id ∉ (compare_dag_graphs graphs1 graphs2).unique_to_env1
          ∧ id ∉ (compare_dag_graphs graphs1 graphs2).unique_to_env2
          ∧ id ∉ (compare_dag_graphs graphs1 graphs2).different_graphs
          ∧ implicitMatch graphs1 graphs2 id)) := by
  refine ⟨h1.filter _, h2.filter _, (h1.filter _).filter _, ?_, ?_, ?_, ?_⟩
  · intro id
    rw [mem_unique_to_env1, mem_unique_to_env2]
    tauto
  · intro id
    rw [mem_unique_to_env1, mem_different_graphs]
    tauto
  · intro id
    rw [mem_unique_to_env2, mem_different_graphs]
    tauto
  · intro id h
    simp only [mem_unique_to_env1, mem_unique_to_env2, mem_different_graphs, implicitMatch]
    by_cases m1 : id ∈ keysOf graphs1
    · by_cases m2 : id ∈ keysOf graphs2
      · by_cases me : lookupG graphs1 id = lookupG graphs2 id
        · refine Or.inr (Or.inr (Or.inr ⟨?_, ?_, ?_, m1, m2, me⟩))
          · rintro ⟨_, hn⟩
            exact hn m2
          · rintro ⟨_, hn⟩
            exact hn m1
          · rintro ⟨_, _, hn⟩
            exact hn me
        · refine Or.inr (Or.inr (Or.inl ⟨?_, ?_, ⟨m1, m2, me⟩, ?_⟩))
          · rintro ⟨_, hn⟩
            exact hn m2
          · rintro ⟨_, hn⟩
            exact hn m1
          · rintro ⟨_, _, hme⟩
            exact me hme
      · refine Or.inl ⟨⟨m1, m2⟩, ?_, ?_, ?_⟩
        · rintro ⟨hm2, _⟩
          exact m2 hm2
        · rintro ⟨_, hm2, _⟩
          exact m2 hm2
        · rintro ⟨_, hm2, _⟩
          exact m2 hm2
    · by_cases m2 : id ∈ keysOf graphs2
      · refine Or.inr (Or.inl ⟨?_, ⟨m2, m1⟩, ?_, ?_⟩)
        · rintro ⟨hm1, _⟩
          exact m1 hm1
        · rintro ⟨hm1, _⟩
          exact m1 hm1
        · rintro ⟨hm1, _⟩
          exact m1 hm1
      · rcases h with hm | hm
        · exact absurd hm m1
        · exact absurd hm m2

theorem compare_dag_graphs_partition_witness :
    (compare_dag_graphs [("w", ["l1"])] [("v", ["l2"])]).unique_to_env1.Nodup :=
  (compare_dag_graphs_partition [("w", ["l1"])] [("v", ["l2"])] (by decide) (by decide)).1

/-! ### Totality under well-formed input -/

theorem extractKeysE_ok {l : List RawTask} (h : ∀ t ∈ l, t.task_id.isSome = true) :
    ∃ ys, extractKeysE l = Except.ok ys := by
  induction l with
  | nil => exact ⟨[], rfl⟩
  | cons t rest ih =>
    rcases Option.isSome_iff_exists.mp (h t (List.mem_cons_self t rest)) with ⟨i, hi⟩
    rcases ih (fun u hu => h u (List.mem_cons_of_mem t hu)) with ⟨ys, hys⟩
    refine ⟨(i, t) :: ys, ?_⟩
    simp only [extractKeysE, hi, hys]
    rfl

theorem normalize_tasksE_ok {tasks : List RawTask}
    (h : ∀ t ∈ tasks, t.task_id.isSome = true) :
    ∃ out, normalize_tasksE tasks = Except.ok out := by
  have h2 : ∀ t ∈ tasks.map sortRawTask, t.task_id.isSome = true := by
    intro t ht
    rcases List.mem_map.mp ht with ⟨u, hu, rfl⟩
    exact h u hu
  rcases extractKeysE_ok h2 with ⟨ys, hys⟩
  refine ⟨(List.insertionSort keyedLE ys).map Prod.snd, ?_⟩
  show (extractKeysE (tasks.map sortRawTask)).map _ = _
  rw [hys]
  rfl

theorem buildGraphE_ok : ∀ (l : List RawTask) (g : Graphs),
    (∀ t ∈ l, t.task_id.isSome = true) → ∃ g2, buildGraphE g l = Except.ok g2 := by
  intro l
  induction l with
  | nil => exact fun g _ => ⟨g, rfl⟩
  | cons t rest ih =>
    intro g h
    rcases Option.isSome_iff_exists.mp (h t (List.mem_cons_self t rest)) with ⟨i, hi⟩
    rcases ih (upsert g i (t.downstream_task_ids.getD []))
      (fun u hu => h u (List.mem_cons_of_mem t hu)) with ⟨g2, hg2⟩
    exact ⟨g2, by simp [buildGraphE, hi, hg2]⟩

theorem lookupG_isSome_of_mem {g : Graphs} {k : String} (h : k ∈ keysOf g) :
    ∃ v, lookupG g k = some v := by
  induction g with
  | nil => cases h
  | cons e rest ih =>
    obtain ⟨a, b⟩ := e
    rw [keysOf_cons] at h
    rw [lookupG_cons]
    by_cases hak : a = k
    · exact ⟨b, by rw [if_pos hak]⟩
    · rcases List.mem_cons.mp h with he | hm
      · exact absurd he.symm hak
      · rcases ih hm with ⟨v, hv⟩
        exact ⟨v, by rw [if_neg hak]; exact hv⟩

theorem getItem_ok {g : Graphs} {k : String} (h : k ∈ keysOf g) :
    ∃ v, getItem g k = Except.ok v := by
  rcases lookupG_isSome_of_mem h with ⟨v, hv⟩
  exact ⟨v, by simp [getItem, hv]⟩

theorem differentGraphsE_ok (graphs1 graphs2 : Graphs) :
    ∀ ks : List String, (∀ k ∈ ks, k ∈ keysOf graphs1 ∧ k ∈ keysOf graphs2) →
      ∃ d, differentGraphsE graphs1 graphs2 ks = Except.ok d := by
  intro ks
  induction ks with
  | nil => exact fun _ => ⟨[], rfl⟩
  | cons k rest ih =>
    intro h
    rcases getItem_ok (h k (List.mem_cons_self k rest)).1 with ⟨a, ha⟩
    rcases getItem_ok (h k (List.mem_cons_self k rest)).2 with ⟨b, hb⟩
    rcases ih (fun u hu => h u (List.mem_cons_of_mem k hu)) with ⟨tail, htail⟩
    refine ⟨if a ≠ b then k :: tail else tail, ?_⟩
    simp only [differentGraphsE, ha, hb, htail]
    rfl

theorem compare_dag_graphsE_ok (graphs1 graphs2 : Graphs) :
    ∃ r, compare_dag_graphsE graphs1 graphs2 = Except.ok r := by
  have hc : ∀ k ∈ (keysOf graphs1).filter (fun k => decide (k ∈ keysOf graphs2)),
      k ∈ keysOf graphs1 ∧ k ∈ keysOf graphs2 := by
    intro k hk
    have hm := List.mem_filter.mp hk
    exact ⟨hm.1, of_decide_eq_true hm.2⟩
  rcases differentGraphsE_ok graphs1 graphs2 _ hc with ⟨d, hd⟩
  refine ⟨⟨(keysOf graphs1).filter (fun k => decide (k ∉ keysOf graphs2)),
    (keysOf graphs2).filter (fun k => decide (k ∉ keysOf graphs1)), d⟩, ?_⟩
  simp only [compare_dag_graphsE, hd]
  rfl

/-- C9: on well-formed input (every task record carries an identifier;
graph collections are string-to-list-of-strings mappings) none of the
three core functions reaches an error: the `KeyError` sites of the
source (`task['task_id']`, `graphs[dag]`) always succeed. -/
theorem core_functions_total (tasks : List RawTask)
    (h : ∀ t ∈ tasks, t.task_id.isSome = true) :
    (∃ out, normalize_tasksE tasks = Except.ok out)
    ∧ (∃ out, create_dependency_graphE tasks = Except.ok out)
    ∧ (∀ graphs1 graphs2 : Graphs, ∃ r, compare_dag_graphsE graphs1 graphs2 = Except.ok r) := by
  refine ⟨normalize_tasksE_ok h, ?_, fun g1 g2 => compare_dag_graphsE_ok g1 g2⟩
  rcases buildGraphE_ok tasks [] h with ⟨g, hg⟩
  refine ⟨g.map renderEntry, ?_⟩
  simp only [create_dependency_graphE, hg]
  rfl

theorem core_functions_total_witness :
    ∃ out, normalize_tasksE [⟨some "a", none⟩] = Except.ok out :=
  (core_functions_total [⟨some "a", none⟩] (by decide)).1

end MigrationVerifier
